import Mathlib

/-!
Verification development for the Bert-Flex-Bot repository.

Python strings are modelled as lists of characters (`PyStr`), Python floats
as rationals (`ℚ`, exact arithmetic; IEEE-754 rounding of intermediate
results is abstracted away, and fixed-point display rounding is modelled as
round-half-to-even on the rational value, which is what CPython's `format`
performs on the underlying value), Python `int` as `ℤ`/`ℕ`, JSON `null`
and absent optional data as `Option`, and a remote call that may raise as
`Except Unit` (the `error` side standing for any caught transport/parse
exception).  Each definition is a direct transcription of the function of
the same name in `src/solana_client.py` or `src/card_generator.py`.
-/

/-- Python `str`, modelled as a list of characters. -/
abbrev PyStr := List Char

/-- Lean string literal to `PyStr`. -/
def pyStr (s : String) : PyStr := s.data

/-- Decimal digit character for `k < 10` (models how CPython prints one digit
of an `int`; total, with a junk default that is never reached for `k < 10`). -/
def decDigit : Nat → Char
  | 0 => '0' | 1 => '1' | 2 => '2' | 3 => '3' | 4 => '4'
  | 5 => '5' | 6 => '6' | 7 => '7' | 8 => '8' | _ => '9'

/-- Decimal digits of `n`, least significant first (fuel-driven structural
recursion; `fuel > n` suffices since `n / 10` shrinks strictly). -/
def revDecDigitsAux : Nat → Nat → List Char
  | 0, _ => []
  | fuel + 1, n =>
    if n < 10 then [decDigit n] else decDigit (n % 10) :: revDecDigitsAux fuel (n / 10)

/-- Model of Python `str(n)` for a non-negative integer: decimal digits,
most significant first, no sign, no leading zeros. -/
def pyStrNat (n : Nat) : PyStr := (revDecDigitsAux (n + 1) n).reverse

/-- Model of Python `str(i)` for an `int` (adds a `-` sign when negative). -/
def pyStrInt (i : Int) : PyStr :=
  if i < 0 then '-' :: pyStrNat i.natAbs else pyStrNat i.natAbs

/-- Numeric value of a decimal digit character. -/
def digitVal (c : Char) : Nat := c.toNat - 48

/-- Value of a string of decimal digits, most significant first. -/
def digitsToNat (s : PyStr) : Nat := s.foldl (fun a c => a * 10 + digitVal c) 0

/-- Model of Python `int(s)` on an already-stripped string: an optional
`-` sign followed by at least one decimal digit parses, anything else
raises `ValueError` (modelled as `none`). -/
def pyParseInt (s : PyStr) : Option Int :=
  match s with
  | [] => none
  | c :: rest =>
    if c = '-' then
      if rest ≠ [] ∧ rest.all Char.isDigit then some (-(digitsToNat rest : Int)) else none
    else if (c :: rest).all Char.isDigit then some ((digitsToNat (c :: rest) : Int)) else none

/-- Model of Python `s.strip()`: drop whitespace from both ends. -/
def pyStrip (s : PyStr) : PyStr :=
  ((s.dropWhile Char.isWhitespace).reverse.dropWhile Char.isWhitespace).reverse

/-- Model of Python `int(x)` on a number: truncation toward zero. -/
def pyInt (q : ℚ) : ℤ := if q < 0 then ⌈q⌉ else ⌊q⌋

/-- Round to the nearest integer, ties to even (the rounding CPython's
fixed-point `format` applies to the value being displayed). -/
def roundHalfEven (q : ℚ) : ℤ :=
  if q - ⌊q⌋ < 1/2 then ⌊q⌋
  else if 1/2 < q - ⌊q⌋ then ⌊q⌋ + 1
  else if ⌊q⌋ % 2 = 0 then ⌊q⌋ else ⌊q⌋ + 1

/-- Left-pad the decimal rendering of `m` with zeros to `decs` characters
(the fractional part of a fixed-point rendering). -/
def padZeros (decs : Nat) (m : Nat) : PyStr :=
  List.replicate (decs - (pyStrNat m).length) '0' ++ pyStrNat m

/-- Model of Python `f"{q:.Nf}"`: fixed-point rendering with `decs`
decimal places, rounding half to even. -/
def fmtFixed (decs : Nat) (q : ℚ) : PyStr :=
  let scaled := roundHalfEven (q * ((10 : ℚ) ^ decs))
  let sgn : PyStr := if scaled < 0 then ['-'] else []
  let n := scaled.natAbs
  sgn ++ pyStrNat (n / 10 ^ decs) ++ ['.'] ++ padZeros decs (n % 10 ^ decs)

/-- Insert a comma after every third character (input is a reversed digit
string); helper for thousands grouping. -/
def groupRev : List Char → List Char
  | c1 :: c2 :: c3 :: c4 :: rest => c1 :: c2 :: c3 :: ',' :: groupRev (c4 :: rest)
  | l => l

/-- Thousands grouping of a digit string, as Python's `,` format flag. -/
def groupDigits (s : PyStr) : PyStr := (groupRev s.reverse).reverse

/-- Model of Python `f"{q:,.2f}"`: two decimal places with thousands
grouping of the integer part. -/
def fmtComma2 (q : ℚ) : PyStr :=
  let scaled := roundHalfEven (q * 100)
  let sgn : PyStr := if scaled < 0 then ['-'] else []
  let n := scaled.natAbs
  sgn ++ groupDigits (pyStrNat (n / 100)) ++ ['.'] ++ padZeros 2 (n % 100)

/-!
Embedding of `src/solana_client.py`.
-/

/-- The parsed `tokenAmount` object of a token account.  `uiAmount` is the
human-readable amount; `none` models JSON `null` (`info["uiAmount"] or 0`
then defaults it to zero). -/
structure TokenAmount where
  uiAmount : Option ℚ
deriving DecidableEq, Repr

/-- One entry of the `getTokenAccountsByOwner` reply: a token account with
its public key and parsed amount. -/
structure TokenAccount where
  pubkey : PyStr
  tokenAmount : TokenAmount
deriving DecidableEq, Repr

/-- A well-formed `getTokenAccountsByOwner` JSON-RPC reply;
`result.value`, the account list, is absent when the reply carries no
`result`/`value` keys (then `result.get("result", {}).get("value", [])`
yields the empty list). -/
structure AccountsReply where
  value : Option (List TokenAccount)
deriving DecidableEq, Repr

/-- `result.get("result", {}).get("value", [])` of `get_token_balance`. -/
def AccountsReply.accounts (r : AccountsReply) : List TokenAccount :=
  r.value.getD []

/-- The sum of the account amounts computed by the loop of
`get_token_balance` (lines 43-47): `total += float(info["uiAmount"] or 0)`. -/
def sumUiAmounts (accounts : List TokenAccount) : ℚ :=
  accounts.foldl (fun total acc => total + acc.tokenAmount.uiAmount.getD 0) 0

/-- `get_token_balance` (src/solana_client.py lines 28-50).  The argument is
the outcome of the RPC round-trip: `Except.error` models a raised
transport/parse exception (caught, logged, and turned into `None`);
`Except.ok` a well-formed reply. -/
def get_token_balance (reply : Except Unit AccountsReply) : Option ℚ :=
  match reply with
  | .error _ => none
  | .ok r =>
    let accounts := r.accounts
    if accounts.isEmpty then some 0
    else some (sumUiAmounts accounts)

/-- One trading pair of the DexScreener reply; every field the code reads,
each `none` when the corresponding JSON key is absent (or `null`). -/
structure Pair where
  liquidityUsd : Option ℚ
  priceUsd : Option ℚ
  marketCap : Option ℚ
  fdv : Option ℚ
  priceChangeH24 : Option ℚ
  volumeH24 : Option ℚ
deriving DecidableEq, Repr

/-- `float(p.get("liquidity", {}).get("usd", 0))`: the key of the
`max(...)` call in `get_token_price` (line 65). -/
def pairLiq (p : Pair) : ℚ := p.liquidityUsd.getD 0

/-- Python `max(pairs, key=f)`: the first element attaining the maximal
key; `none` on an empty list (where Python would raise, but the code
returns before calling `max` on an empty list). -/
def pyMaxBy (f : Pair → ℚ) : List Pair → Option Pair
  | [] => none
  | x :: xs => some (xs.foldl (fun best c => if f best < f c then c else best) x)

/-- The market-data record `get_token_price` builds from the selected pair
(lines 66-71).  `float(pair.get("marketCap", 0) or pair.get("fdv", 0))`:
a missing/zero market cap falls back to the fully-diluted valuation. -/
structure PriceData where
  price_usd : ℚ
  market_cap : ℚ
  price_change_24h : ℚ
  volume_24h : ℚ
deriving DecidableEq, Repr

/-- Extraction of the `PriceData` fields from one pair (lines 66-71). -/
def pair_market_data (pair : Pair) : PriceData :=
  { price_usd := pair.priceUsd.getD 0
    market_cap :=
      let mc := pair.marketCap.getD 0
      if mc = 0 then pair.fdv.getD 0 else mc
    price_change_24h := pair.priceChangeH24.getD 0
    volume_24h := pair.volumeH24.getD 0 }

/-- `get_token_price` (src/solana_client.py lines 53-74).  The argument is
the outcome of the aggregator round-trip: `Except.error` a raised
exception (caught and turned into `None`), `Except.ok pairs` a reply whose
`data.get("pairs", [])` is `pairs`.  Empty pair list yields `None`;
otherwise the pair with the highest reported USD liquidity is selected. -/
def get_token_price (reply : Except Unit (List Pair)) : Option PriceData :=
  match reply with
  | .error _ => none
  | .ok pairs =>
    match pyMaxBy pairLiq pairs with
    | none => none
    | some pair => some (pair_market_data pair)

/-- One entry of the `getTokenLargestAccounts` reply: a token account
address and its human-readable balance (`uiAmount`, `null` modelled as
`none`). -/
structure LargestHolder where
  address : PyStr
  uiAmount : Option ℚ
deriving DecidableEq, Repr

/-- The heterogeneous `total_holders` field of the rank dict: either the
integer `len(largest)` or one of the tag strings `"20+"`, `"est."`,
`"unknown"`. -/
inductive TotalHolders where
  | count : Nat → TotalHolders
  | tag : PyStr → TotalHolders
deriving DecidableEq, Repr

/-- The dict returned by `get_holder_rank` on success. -/
structure RankData where
  rank : Option ℤ
  total_holders : TotalHolders
  top_20 : Bool
deriving DecidableEq, Repr

/-- The loop of lines 155-161: first index (1-based) whose `address`
equals the user's token-account public key. -/
def find_holder_rank (user_pubkey : PyStr) : List LargestHolder → Option ℕ
  | [] => none
  | h :: t =>
    if h.address = user_pubkey then some 1
    else (find_holder_rank user_pubkey t).map (· + 1)

/-- The three-tier estimate of lines 167-173, as a function of
`ratio = user_balance / smallest_top` (`int(...)` truncates toward
zero). -/
def est_rank (r : ℚ) : ℤ :=
  if 1/2 < r then 20 + pyInt ((1 - r) * 30)
  else if 1/10 < r then 50 + pyInt ((1 - r) * 200)
  else 250 + pyInt ((1 - r) * 1000)

/-- `get_holder_rank` (src/solana_client.py lines 121-184).  The two
arguments are the outcomes of the `getTokenLargestAccounts` and the
`getTokenAccountsByOwner` round-trips; an exception raised by either is
caught by the enclosing `try` and yields `None`. -/
def get_holder_rank (largestReply : Except Unit (List LargestHolder))
    (accountsReply : Except Unit AccountsReply) : Option RankData :=
  match largestReply with
  | .error _ => none
  | .ok largest =>
    if largest.isEmpty then none
    else
      match accountsReply with
      | .error _ => none
      | .ok r =>
        match r.accounts with
        | [] => some ⟨none, .count largest.length, false⟩
        | ua0 :: _ =>
          let user_pubkey := ua0.pubkey
          let user_balance := ua0.tokenAmount.uiAmount.getD 0
          match find_holder_rank user_pubkey largest with
          | some rk => some ⟨some (rk : ℤ), .tag (pyStr "20+"), true⟩
          | none =>
            let smallest_top := ((largest.getLast?).map (fun h => h.uiAmount.getD 0)).getD 0
            if 0 < user_balance ∧ 0 < smallest_top then
              some ⟨some (est_rank (user_balance / smallest_top)), .tag (pyStr "est."), false⟩
            else some ⟨none, .tag (pyStr "unknown"), false⟩

/-- The `usd_value` computation of `get_wallet_data` (lines 198-200):
`balance * price_data["price_usd"]` when the balance is not `None` and the
price dict is truthy (a non-`None` dict from `get_token_price` is always
non-empty, hence truthy), else `None`. -/
def usd_value (balance : Option ℚ) (price_data : Option PriceData) : Option ℚ :=
  match balance, price_data with
  | some b, some p => some (b * p.price_usd)
  | _, _ => none

/-- The hold-duration computation of `get_wallet_data` (lines 203-212).
The argument is the elapsed time `now - first_buy` as a normalized
`timedelta`, `(delta.days, delta.seconds)` with `0 ≤ seconds < 86400`
(a `none` first buy gives a `None` duration); a first buy in the future
does not occur and is outside this model. -/
def hold_duration (delta : Option (Nat × Nat)) : Option PyStr :=
  match delta with
  | none => none
  | some (days, secs) =>
    if 365 ≤ days then
      some (pyStrNat (days / 365) ++ pyStr "y " ++ pyStrNat ((days % 365) / 30) ++ pyStr "m")
    else if 30 ≤ days then
      some (pyStrNat (days / 30) ++ pyStr "m " ++ pyStrNat (days % 30) ++ pyStr "d")
    else
      some (pyStrNat days ++ pyStr "d " ++ pyStrNat (secs / 3600) ++ pyStr "h")

/-- Python `a or b` on an optional string: `b` when `a` is `None` or
empty, else the string (`hold_duration or "New holder"`, line 225). -/
def pyOrStr (a : Option PyStr) (b : PyStr) : PyStr :=
  match a with
  | none => b
  | some s => if s = [] then b else s

/-- `_format_number` (src/solana_client.py lines 232-242): K/M/B suffixes
with two decimals, comma grouping below one thousand. -/
def format_number (n : Option ℚ) : PyStr :=
  match n with
  | none => pyStr "0"
  | some q =>
    if (1000000000 : ℚ) ≤ q then fmtFixed 2 (q / 1000000000) ++ ['B']
    else if (1000000 : ℚ) ≤ q then fmtFixed 2 (q / 1000000) ++ ['M']
    else if (1000 : ℚ) ≤ q then fmtFixed 2 (q / 1000) ++ ['K']
    else fmtComma2 q

/-- `_format_usd` (src/solana_client.py lines 245-255): M/K suffixes, two
decimals at one or above, four decimals below one. -/
def format_usd (n : Option ℚ) : PyStr :=
  match n with
  | none => pyStr "$0"
  | some q =>
    '$' ::
      (if (1000000 : ℚ) ≤ q then fmtFixed 2 (q / 1000000) ++ ['M']
       else if (1000 : ℚ) ≤ q then fmtFixed 2 (q / 1000) ++ ['K']
       else if (1 : ℚ) ≤ q then fmtComma2 q
       else fmtFixed 4 q)

/-- `_format_rank` (src/solana_client.py lines 258-269). -/
def format_rank (rank_data : RankData) : PyStr :=
  match rank_data.rank with
  | none => pyStr "Unranked"
  | some rk =>
    if rk ≤ 10 then pyStr "🐋 #" ++ pyStrInt rk ++ pyStr " (Top 10)"
    else if rk ≤ 50 then pyStr "🦈 #" ++ pyStrInt rk ++ pyStr " (Top 50)"
    else if rk ≤ 100 then pyStr "🐬 #" ++ pyStrInt rk ++ pyStr " (Top 100)"
    else pyStr "🐟 ~#" ++ pyStrInt rk

/-- The dict returned by `get_wallet_data` (lines 214-229), one field per
key. -/
structure WalletSnapshot where
  wallet : PyStr
  wallet_short : PyStr
  balance : Option ℚ
  balance_formatted : PyStr
  price_usd : Option ℚ
  usd_value : Option ℚ
  usd_value_formatted : PyStr
  market_cap : Option ℚ
  price_change_24h : Option ℚ
  first_buy : Option (Nat × Nat)
  hold_duration : PyStr
  rank : Option ℤ
  rank_display : PyStr
  top_20 : Bool
deriving DecidableEq, Repr

/-- `get_wallet_data` (src/solana_client.py lines 187-229).  The four
arguments after the address are the outcomes of the four concurrent
sub-lookups (`asyncio.gather` re-raises nothing here: each sub-lookup
catches its own exceptions and resolves to `None` instead), with the first
buy already expressed as the elapsed `timedelta` as in `hold_duration`.
The function is total: it always assembles the complete snapshot dict. -/
def get_wallet_data (wallet : PyStr) (balance : Option ℚ)
    (price_data : Option PriceData) (first_buy : Option (Nat × Nat))
    (rank_data : Option RankData) : WalletSnapshot :=
  let usd := usd_value balance price_data
  { wallet := wallet
    wallet_short := wallet.take 4 ++ pyStr "..." ++ wallet.drop (wallet.length - 4)
    balance := balance
    balance_formatted :=
      if balance = none ∨ balance = some 0 then pyStr "0" else format_number balance
    price_usd := price_data.map PriceData.price_usd
    usd_value := usd
    usd_value_formatted :=
      if usd = none ∨ usd = some 0 then pyStr "$0" else format_usd usd
    market_cap := price_data.map PriceData.market_cap
    price_change_24h := price_data.map PriceData.price_change_24h
    first_buy := first_buy
    hold_duration := pyOrStr (hold_duration first_buy) (pyStr "New holder")
    rank := rank_data.bind RankData.rank
    rank_display :=
      match rank_data with
      | none => pyStr "Unranked"
      | some rd => format_rank rd
    top_20 := (rank_data.map RankData.top_20).getD false }

/-!
Embedding of `src/card_generator.py`.
-/

/-- `_get_hands_label` (src/card_generator.py lines 160-173).  Python's
`"y" in s` / `"m" in s` on a one-character needle is character membership;
`duration_str.split("m")[0]` is the prefix before the first `m` (the whole
string when no `m` occurs), here `takeWhile`; a `ValueError` from `int`
falls back to `0` months. -/
def get_hands_label (duration_str : PyStr) : PyStr :=
  if duration_str = [] ∨ duration_str = pyStr "New holder" then pyStr "NEW"
  else if 'y' ∈ duration_str then pyStr "OG DIAMOND"
  else if 'm' ∈ duration_str then
    let months : ℤ :=
      (pyParseInt (pyStrip (duration_str.takeWhile (fun c => c != 'm')))).getD 0
    if 6 ≤ months then pyStr "DIAMOND"
    else if 3 ≤ months then pyStr "STRONG"
    else pyStr "STEADY"
  else pyStr "FRESH"

/-- The tenure pipeline: the snapshot's `hold_duration` display string
(`hold_duration or "New holder"`, src/solana_client.py line 225) fed to
`_get_hands_label` (src/card_generator.py line 307). -/
def tenure_label (delta : Option (Nat × Nat)) : PyStr :=
  get_hands_label (pyOrStr (hold_duration delta) (pyStr "New holder"))

/-- `CARD_WIDTH * SCALE` (config.py line 29, card_generator.py lines
17-18). -/
def cardW : Nat := 800 * 2

/-- `CARD_HEIGHT * SCALE` (config.py line 30, card_generator.py lines
17-19). -/
def cardH : Nat := 480 * 2

/-- An RGBA color. -/
structure Rgba where
  r : Nat
  g : Nat
  b : Nat
  a : Nat
deriving DecidableEq, Repr

/-- `(*CYAN, a)` (card_generator.py line 22). -/
def cyanA (a : Nat) : Rgba := ⟨0, 240, 255, a⟩

/-- `(*MAGENTA, a)` (card_generator.py line 23). -/
def magentaA (a : Nat) : Rgba := ⟨255, 0, 229, a⟩

/-- `(255, 255, 255, a)` (card_generator.py line 122). -/
def whiteA (a : Nat) : Rgba := ⟨255, 255, 255, a⟩

/-- Model of CPython's salted string hashing (`hash(str)`): the process
interpreter salt (from `PYTHONHASHSEED`) is mixed into a fold over the
characters, and the empty string hashes to `0` regardless of the salt.
The real CPython uses siphash13 keyed by the salt; the model keeps the
properties the code relies on: a pure function of (salt, string), with the
salt a genuine input for every non-empty string. -/
def pyStrHash (salt : Nat) (s : PyStr) : Nat :=
  if s = [] then 0
  else s.foldl (fun h c => (h * 1000003 + c.toNat + 1) % 2 ^ 61) (salt % 2 ^ 61)

/-- A deterministic model of `random.Random`'s generator state after
`random.seed(n)` (the Mersenne Twister init, abstracted to a 64-bit
mixing step: the model keeps what the code relies on, a pure function of
the seed). -/
def rngSeed (n : Nat) : Nat := (n + 11400714819323198485) % 2 ^ 64

/-- One step of the modelled generator: next raw output and next state. -/
def rngNext (st : Nat) : Nat × Nat :=
  let st' := (6364136223846793005 * st + 1442695040888963407) % 2 ^ 64
  (st' / 2 ^ 33, st')

/-- Model of `random.randint(a, b)`: uniform draw from `[a, b]`, both ends
included, consuming one generator step. -/
def randint (a b st : Nat) : Nat × Nat :=
  let (r, st') := rngNext st
  (a + r % (b - a + 1), st')

/-- Model of `random.choice(l)` for a non-empty list (with a default for
the empty case the code never hits), consuming one generator step. -/
def randchoice (l : List Rgba) (d : Rgba) (st : Nat) : Rgba × Nat :=
  let (r, st') := rngNext st
  (l.getD (r % l.length) d, st')

/-- One background particle: position, size, alpha, color
(card_generator.py lines 117-123). -/
structure Particle where
  x : Nat
  y : Nat
  s : Nat
  a : Nat
  c : Rgba
deriving DecidableEq, Repr

/-- The particle loop of `_draw_bg` (card_generator.py lines 117-123):
`count` iterations, each drawing `x`, `y`, size, alpha and a color choice
from the shared generator state, in program order. -/
def drawParticles : Nat → Nat → List Particle × Nat
  | 0, st => ([], st)
  | k + 1, st =>
    let (x, st1) := randint 0 cardW st
    let (y, st2) := randint 0 cardH st1
    let (s, st3) := randint 2 5 st2
    let (a, st4) := randint 30 100 st3
    let (c, st5) := randchoice [cyanA a, magentaA a, whiteA a] (cyanA a) st4
    let (rest, st6) := drawParticles k st5
    (⟨x, y, s, a, c⟩ :: rest, st6)

/-- The particle-field layout produced by one call of `generate_flex_card`
(card_generator.py lines 220-227): `random.seed(hash(wallet) % 2**32)`
resets the module-wide generator — discarding whatever state `rng0` it
carried from earlier renders in the same process — and `_draw_bg` then
draws 35 particles from it.  `salt` is the interpreter's string-hash salt
for the process. -/
def generate_flex_card_particles (salt : Nat) (wallet : PyStr) (rng0 : Nat) :
    List Particle × Nat :=
  let _ := rng0
  let seed := pyStrHash salt wallet % 2 ^ 32
  drawParticles 35 (rngSeed seed)

/-!
Helper lemmas about the string model.
-/

theorem decDigit_isDigit (k : Nat) : (decDigit k).isDigit = true := by
  match k with
  | 0 | 1 | 2 | 3 | 4 | 5 | 6 | 7 | 8 => decide
  | n + 9 => exact (by decide : ('9' : Char).isDigit = true)

theorem mem_revDecDigitsAux_isDigit (fuel : Nat) :
    ∀ n, ∀ c ∈ revDecDigitsAux fuel n, c.isDigit = true := by
  induction fuel with
  | zero => intro n c hc; cases hc
  | succ fuel ih =>
    intro n c hc
    rw [revDecDigitsAux] at hc
    split at hc
    · rw [List.mem_singleton] at hc
      subst hc
      exact decDigit_isDigit n
    · rcases List.mem_cons.mp hc with h | h
      · subst h; exact decDigit_isDigit (n % 10)
      · exact ih (n / 10) c h

theorem mem_pyStrNat_isDigit (n : Nat) :
    ∀ c ∈ pyStrNat n, c.isDigit = true := by
  intro c hc
  exact mem_revDecDigitsAux_isDigit (n + 1) n c (List.mem_reverse.mp hc)

theorem isDigit_ne {c d : Char} (h : c.isDigit = true) (hd : d.isDigit = false) :
    c ≠ d := by
  intro e
  subst e
  rw [h] at hd
  cases hd

theorem pyStrNat_ne_nil (n : Nat) : pyStrNat n ≠ [] := by
  unfold pyStrNat revDecDigitsAux
  split <;> simp

theorem digitVal_decDigit (k : Nat) (h : k < 10) : digitVal (decDigit k) = k := by
  interval_cases k <;> decide

theorem foldr_revDecDigitsAux (fuel : Nat) :
    ∀ n, n < fuel →
      List.foldr (fun c a => a * 10 + digitVal c) 0 (revDecDigitsAux fuel n) = n := by
  induction fuel with
  | zero => intro n h; omega
  | succ fuel ih =>
    intro n h
    rw [revDecDigitsAux]
    split
    · next h10 =>
      simp [digitVal_decDigit n h10]
    · next h10 =>
      rw [List.foldr_cons, ih (n / 10) (by omega),
        digitVal_decDigit (n % 10) (Nat.mod_lt _ (by omega))]
      omega

theorem digitsToNat_pyStrNat (n : Nat) : digitsToNat (pyStrNat n) = n := by
  unfold digitsToNat pyStrNat
  rw [List.foldl_reverse]
  exact foldr_revDecDigitsAux (n + 1) n (by omega)

theorem takeWhile_all_append (p : Char → Bool) (A : PyStr) (x : Char) (B : PyStr)
    (hA : ∀ c ∈ A, p c = true) (hx : p x = false) :
    (A ++ x :: B).takeWhile p = A := by
  induction A with
  | nil => simp [List.takeWhile, hx]
  | cons a t iht =>
    have ha : p a = true := hA a (List.mem_cons_self a t)
    have iht' := iht (fun c hc => hA c (List.mem_cons_of_mem a hc))
    simp [List.takeWhile_cons, ha, iht']

theorem dropWhile_of_all_not (p : Char → Bool) (s : PyStr)
    (h : ∀ c ∈ s, p c = false) : s.dropWhile p = s := by
  cases s with
  | nil => rfl
  | cons a t =>
    simp [List.dropWhile, h a (List.mem_cons_self a t)]

theorem digit_not_whitespace {c : Char} (h : c.isDigit = true) :
    c.isWhitespace = false := by
  revert h
  unfold Char.isDigit Char.isWhitespace
  intro h
  rcases Bool.and_eq_true _ _ |>.mp h with ⟨h1, h2⟩
  have h48 : 48 ≤ c.val := by exact decide_eq_true_eq.mp h1
  have h57 : c.val ≤ 57 := by exact decide_eq_true_eq.mp h2
  simp only [Bool.or_eq_false_iff, decide_eq_false_iff_not]
  refine ⟨⟨⟨?_, ?_⟩, ?_⟩, ?_⟩ <;> intro e <;> subst e <;> simp_all

theorem pyStrip_of_digits (s : PyStr) (h : ∀ c ∈ s, c.isDigit = true) :
    pyStrip s = s := by
  unfold pyStrip
  rw [dropWhile_of_all_not _ s (fun c hc => digit_not_whitespace (h c hc)),
    dropWhile_of_all_not _ s.reverse
      (fun c hc => digit_not_whitespace (h c (List.mem_reverse.mp hc))),
    List.reverse_reverse]

theorem pyParseInt_digits (s : PyStr) (hne : s ≠ [])
    (h : ∀ c ∈ s, c.isDigit = true) :
    pyParseInt s = some ((digitsToNat s : ℕ) : ℤ) := by
  match s, hne with
  | c :: rest, _ =>
    have hc : c.isDigit = true := h c (List.mem_cons_self c rest)
    have hcm : ¬(c = '-') := isDigit_ne hc (by decide)
    have hall : (c :: rest).all Char.isDigit = true :=
      List.all_eq_true.mpr (fun x hx => h x hx)
    simp only [pyParseInt]
    rw [if_neg hcm, if_pos hall]

theorem pyParseInt_pyStrNat (n : Nat) :
    pyParseInt (pyStrNat n) = some (n : ℤ) := by
  rw [pyParseInt_digits (pyStrNat n) (pyStrNat_ne_nil n) (mem_pyStrNat_isDigit n),
    digitsToNat_pyStrNat]

/-- `roundHalfEven` evaluates to the floor when the fractional part is
below one half. -/
theorem roundHalfEven_eq (q : ℚ) (z : ℤ) (h1 : ⌊q⌋ = z) (h2 : q - z < 1/2) :
    roundHalfEven q = z := by
  unfold roundHalfEven
  rw [h1, if_pos h2]

/-- C2: for every wallet address, `get_token_balance` returns exactly `0.0`
on a well-formed RPC reply listing no token accounts; it returns `None`
exactly when the round-trip raised (so zero holdings and fetch failure are
distinguishable); and on a reply with accounts present it returns the sum
over all returned accounts of their human-readable amounts, a `null`
amount counting as zero. -/
theorem get_token_balance_spec :
    (∀ r : AccountsReply, r.accounts = [] → get_token_balance (Except.ok r) = some 0) ∧
    (∀ e : Unit, get_token_balance (Except.error e) = none) ∧
    (∀ r : AccountsReply, get_token_balance (Except.ok r) ≠ none) ∧
    (∀ r : AccountsReply, r.accounts ≠ [] →
      get_token_balance (Except.ok r) = some (sumUiAmounts r.accounts)) := by
  refine ⟨?_, fun e => rfl, ?_, ?_⟩
  · intro r h
    simp [get_token_balance, h]
  · intro r
    simp only [get_token_balance]
    split <;> simp
  · intro r h
    simp [get_token_balance, h]

/-- C2 witness: the three outcomes at concrete replies. -/
theorem get_token_balance_spec_witness :
    get_token_balance (Except.ok ⟨some []⟩) = some 0 ∧
    get_token_balance (Except.error ()) = none ∧
    get_token_balance (Except.ok ⟨some [⟨pyStr "acct1", ⟨some 5⟩⟩, ⟨pyStr "acct2", ⟨none⟩⟩]⟩) =
      some (sumUiAmounts [⟨pyStr "acct1", ⟨some 5⟩⟩, ⟨pyStr "acct2", ⟨none⟩⟩]) ∧
    get_token_balance (Except.ok ⟨none⟩) ≠ none :=
  ⟨get_token_balance_spec.1 ⟨some []⟩ rfl,
   get_token_balance_spec.2.1 (),
   get_token_balance_spec.2.2.2 _ (by decide),
   get_token_balance_spec.2.2.1 ⟨none⟩⟩

/-- C3: in the snapshot assembled by `get_wallet_data`, `usd_value` is
`None` exactly when the balance lookup or the market lookup returned
`None`; otherwise it is exactly the product `balance * price_usd`. -/
theorem get_wallet_data_usd_value_spec :
    (∀ w bal pd fb rk,
      ((get_wallet_data w bal pd fb rk).usd_value = none ↔ bal = none ∨ pd = none)) ∧
    (∀ (w : PyStr) (b : ℚ) (p : PriceData) fb rk,
      (get_wallet_data w (some b) (some p) fb rk).usd_value = some (b * p.price_usd)) := by
  constructor
  · intro w bal pd fb rk
    cases bal <;> cases pd <;> simp [get_wallet_data, usd_value]
  · intro w b p fb rk
    rfl

/-- C7: the token-amount formatter maps `1_234_567` to `"1.23M"` and `987`
to `"987.00"`, with B/M/K suffixes at the `1e9`/`1e6`/`1e3` thresholds and
two decimal places; the USD formatter maps `0.0098` to `"$0.0098"`
(sub-unit values get four decimals) and `176_740` to `"$176.74K"`. -/
theorem format_number_format_usd_spec :
    format_number (some 1234567) = pyStr "1.23M" ∧
    format_number (some 987) = pyStr "987.00" ∧
    format_usd (some (98/10000)) = pyStr "$0.0098" ∧
    format_usd (some 176740) = pyStr "$176.74K" ∧
    (∀ q : ℚ, (1000000000 : ℚ) ≤ q →
      format_number (some q) = fmtFixed 2 (q / 1000000000) ++ ['B']) ∧
    (∀ q : ℚ, (1000000 : ℚ) ≤ q → q < 1000000000 →
      format_number (some q) = fmtFixed 2 (q / 1000000) ++ ['M']) ∧
    (∀ q : ℚ, (1000 : ℚ) ≤ q → q < 1000000 →
      format_number (some q) = fmtFixed 2 (q / 1000) ++ ['K']) ∧
    (∀ q : ℚ, q < 1 → format_usd (some q) = '$' :: fmtFixed 4 q) := by
  refine ⟨?_, ?_, ?_, ?_, ?_, ?_, ?_, ?_⟩
  · have h : roundHalfEven ((1234567/1000000 : ℚ) * 10 ^ 2) = 123 :=
      roundHalfEven_eq _ 123 (by norm_num) (by norm_num)
    simp only [format_number]
    rw [if_neg (by norm_num), if_pos (by norm_num)]
    simp only [fmtFixed, h]
    decide
  · have h : roundHalfEven ((987 : ℚ) * 100) = 98700 :=
      roundHalfEven_eq _ 98700 (by norm_num) (by norm_num)
    simp only [format_number]
    rw [if_neg (by norm_num), if_neg (by norm_num), if_neg (by norm_num)]
    simp only [fmtComma2, h]
    decide
  · have h : roundHalfEven ((98/10000 : ℚ) * 10 ^ 4) = 98 :=
      roundHalfEven_eq _ 98 (by norm_num) (by norm_num)
    simp only [format_usd]
    rw [if_neg (by norm_num), if_neg (by norm_num), if_neg (by norm_num)]
    simp only [fmtFixed, h]
    decide
  · have h : roundHalfEven ((176740/1000 : ℚ) * 10 ^ 2) = 17674 :=
      roundHalfEven_eq _ 17674 (by norm_num) (by norm_num)
    simp only [format_usd]
    rw [if_neg (by norm_num), if_pos (by norm_num)]
    simp only [fmtFixed, h]
    decide
  · intro q h
    simp only [format_number]
    rw [if_pos h]
  · intro q h1 h2
    simp only [format_number]
    rw [if_neg (by linarith), if_pos h1]
  · intro q h1 h2
    simp only [format_number]
    rw [if_neg (by linarith), if_neg (by linarith), if_pos h1]
  · intro q h
    simp only [format_usd]
    rw [if_neg (by linarith), if_neg (by linarith), if_neg (by linarith)]

/-- C7 witness: the threshold branches exercised at concrete values. -/
theorem format_number_format_usd_spec_witness :
    format_number (some 2000000000) = fmtFixed 2 ((2000000000 : ℚ) / 1000000000) ++ ['B'] ∧
    format_number (some 2000000) = fmtFixed 2 ((2000000 : ℚ) / 1000000) ++ ['M'] ∧
    format_number (some 2000) = fmtFixed 2 ((2000 : ℚ) / 1000) ++ ['K'] ∧
    format_usd (some (1/2)) = '$' :: fmtFixed 4 (1/2) :=
  ⟨format_number_format_usd_spec.2.2.2.2.1 2000000000 (by norm_num),
   format_number_format_usd_spec.2.2.2.2.2.1 2000000 (by norm_num) (by norm_num),
   format_number_format_usd_spec.2.2.2.2.2.2.1 2000 (by norm_num) (by norm_num),
   format_number_format_usd_spec.2.2.2.2.2.2.2 (1/2) (by norm_num)⟩

/-- C8: `get_wallet_data` is total — for every combination of sub-lookup
outcomes (each of balance, price, first-buy and rank independently `None`
or present) it assembles the complete snapshot record — and each field
group depends only on its own sub-lookup's outcome (the USD pair on
balance and price jointly), so one operation's `None` never blocks or
nulls out the fields derived from the others. -/
theorem get_wallet_data_independence :
    ∀ (w : PyStr) (bal : Option ℚ) (pd : Option PriceData) (fb : Option (Nat × Nat))
      (rk : Option RankData) (bal' : Option ℚ) (pd' : Option PriceData)
      (fb' : Option (Nat × Nat)) (rk' : Option RankData),
      ((get_wallet_data w bal pd fb rk).balance = (get_wallet_data w bal pd' fb' rk').balance ∧
       (get_wallet_data w bal pd fb rk).balance_formatted =
         (get_wallet_data w bal pd' fb' rk').balance_formatted) ∧
      ((get_wallet_data w bal pd fb rk).price_usd = (get_wallet_data w bal' pd fb' rk').price_usd ∧
       (get_wallet_data w bal pd fb rk).market_cap = (get_wallet_data w bal' pd fb' rk').market_cap ∧
       (get_wallet_data w bal pd fb rk).price_change_24h =
         (get_wallet_data w bal' pd fb' rk').price_change_24h) ∧
      ((get_wallet_data w bal pd fb rk).first_buy = (get_wallet_data w bal' pd' fb rk').first_buy ∧
       (get_wallet_data w bal pd fb rk).hold_duration =
         (get_wallet_data w bal' pd' fb rk').hold_duration) ∧
      ((get_wallet_data w bal pd fb rk).rank = (get_wallet_data w bal' pd' fb' rk).rank ∧
       (get_wallet_data w bal pd fb rk).rank_display =
         (get_wallet_data w bal' pd' fb' rk).rank_display ∧
       (get_wallet_data w bal pd fb rk).top_20 = (get_wallet_data w bal' pd' fb' rk).top_20) ∧
      ((get_wallet_data w bal pd fb rk).usd_value = (get_wallet_data w bal pd fb' rk').usd_value ∧
       (get_wallet_data w bal pd fb rk).usd_value_formatted =
         (get_wallet_data w bal pd fb' rk').usd_value_formatted) :=
  fun _ _ _ _ _ _ _ _ _ =>
    ⟨⟨rfl, rfl⟩, ⟨rfl, rfl, rfl⟩, ⟨rfl, rfl⟩, ⟨rfl, rfl, rfl⟩, ⟨rfl, rfl⟩⟩

/-- C1 (amended): within one interpreter process — a fixed string-hash
salt — the particle layout of a render is a pure function of the salted
hash of the wallet address, re-derived by `random.seed` on every render,
so two renders of the same address in the same process produce the
identical particle-field layout no matter what state the module-wide
generator was left in by earlier renders. -/
theorem generate_flex_card_particles_deterministic :
    ∀ (salt : Nat) (wallet : PyStr) (rng1 rng2 : Nat),
      (generate_flex_card_particles salt wallet rng1).1 =
        (generate_flex_card_particles salt wallet rng2).1 ∧
      (generate_flex_card_particles salt wallet rng1).1 =
        (drawParticles 35 (rngSeed (pyStrHash salt wallet % 2 ^ 32))).1 :=
  fun _ _ _ _ => ⟨rfl, rfl⟩

set_option maxRecDepth 4000 in
/-- C1 counterexample: the particle seed is `hash(wallet) % 2**32` with
CPython's salted string hash, not a function of the address alone — two
runs of the interpreter with different hash salts (different
`PYTHONHASHSEED`) place different particles for the same wallet address. -/
theorem generate_flex_card_particles_salt_dependent :
    (generate_flex_card_particles 0 (pyStr "5c1C2RRRqDmbbqjBxcv4fZuknqA2mF7WhX3eLCbxcv4f") 0).1 ≠
      (generate_flex_card_particles 1 (pyStr "5c1C2RRRqDmbbqjBxcv4fZuknqA2mF7WhX3eLCbxcv4f") 0).1 := by
  decide

/-- C10: the rank estimate of `get_holder_rank` reads only the first token
account returned for the owner — replacing every later account leaves the
result unchanged — while `get_token_balance` sums across all accounts, so
the balances of the other accounts change the summed total but never the
rank. -/
theorem get_holder_rank_first_account_only :
    (∀ (largestReply : Except Unit (List LargestHolder)) (ua0 : TokenAccount)
       (rest rest' : List TokenAccount),
       get_holder_rank largestReply (Except.ok ⟨some (ua0 :: rest)⟩) =
         get_holder_rank largestReply (Except.ok ⟨some (ua0 :: rest')⟩)) ∧
    get_token_balance
        (Except.ok ⟨some [⟨pyStr "usrMain", ⟨some 169⟩⟩, ⟨pyStr "usrAux", ⟨some 5⟩⟩]⟩) ≠
      get_token_balance
        (Except.ok ⟨some [⟨pyStr "usrMain", ⟨some 169⟩⟩, ⟨pyStr "usrAux", ⟨some 7⟩⟩]⟩) ∧
    get_holder_rank (Except.ok [⟨pyStr "whale", some 100⟩])
        (Except.ok ⟨some [⟨pyStr "usrMain", ⟨some 169⟩⟩, ⟨pyStr "usrAux", ⟨some 5⟩⟩]⟩) =
      get_holder_rank (Except.ok [⟨pyStr "whale", some 100⟩])
        (Except.ok ⟨some [⟨pyStr "usrMain", ⟨some 169⟩⟩, ⟨pyStr "usrAux", ⟨some 7⟩⟩]⟩) := by
  refine ⟨?_, ?_, rfl⟩
  · intro largestReply ua0 rest rest'
    cases largestReply <;> rfl
  · intro h
    simp only [get_token_balance, AccountsReply.accounts, Option.getD, sumUiAmounts,
      List.foldl, List.isEmpty] at h
    norm_num at h

/-- The scan of the largest-holders list returns the 1-based position of
the first entry whose address matches. -/
theorem find_holder_rank_append (pk : PyStr) (A : List LargestHolder)
    (h : LargestHolder) (B : List LargestHolder) (hh : h.address = pk)
    (hA : ∀ a ∈ A, a.address ≠ pk) :
    find_holder_rank pk (A ++ h :: B) = some (A.length + 1) := by
  induction A with
  | nil => simp [find_holder_rank, hh]
  | cons a t ih =>
    have ha : ¬(a.address = pk) := hA a (List.mem_cons_self a t)
    simp only [List.cons_append, find_holder_rank, if_neg ha, List.append_eq]
    rw [ih (fun x hx => hA x (List.mem_cons_of_mem a hx))]
    simp

/-- Evaluation of `get_holder_rank` on a non-empty largest-holders list
and a non-empty owner account list, before the position test. -/
theorem get_holder_rank_ok (largest : List LargestHolder) (ua0 : TokenAccount)
    (rest : List TokenAccount) (hne : largest ≠ []) :
    get_holder_rank (Except.ok largest) (Except.ok ⟨some (ua0 :: rest)⟩) =
      match find_holder_rank ua0.pubkey largest with
      | some rk => some ⟨some (rk : ℤ), .tag (pyStr "20+"), true⟩
      | none =>
        if 0 < ua0.tokenAmount.uiAmount.getD 0 ∧
            0 < ((largest.getLast?).map (fun h => h.uiAmount.getD 0)).getD 0 then
          some ⟨some (est_rank (ua0.tokenAmount.uiAmount.getD 0 /
              ((largest.getLast?).map (fun h => h.uiAmount.getD 0)).getD 0)),
            .tag (pyStr "est."), false⟩
        else some ⟨none, .tag (pyStr "unknown"), false⟩ := by
  simp only [get_holder_rank, AccountsReply.accounts, Option.getD]
  rw [if_neg (by simp [hne])]

/-- The wallet's first account is found in the list: rank is its 1-based
position. -/
theorem get_holder_rank_found (A : List LargestHolder) (h : LargestHolder)
    (B : List LargestHolder) (ua0 : TokenAccount) (rest : List TokenAccount)
    (hh : h.address = ua0.pubkey) (hA : ∀ a ∈ A, a.address ≠ ua0.pubkey) :
    get_holder_rank (Except.ok (A ++ h :: B)) (Except.ok ⟨some (ua0 :: rest)⟩) =
      some ⟨some ((A.length + 1 : ℕ) : ℤ), .tag (pyStr "20+"), true⟩ := by
  rw [get_holder_rank_ok _ _ _ (by simp), find_holder_rank_append _ _ _ _ hh hA]

/-- The wallet's first account is absent and both balances positive: rank
is the three-tier estimate at `ratio = user_balance / smallest_top`. -/
theorem get_holder_rank_est (largest : List LargestHolder) (ua0 : TokenAccount)
    (rest : List TokenAccount) (hne : largest ≠ [])
    (hfind : find_holder_rank ua0.pubkey largest = none)
    (hub : 0 < ua0.tokenAmount.uiAmount.getD 0)
    (hst : 0 < ((largest.getLast?).map (fun h => h.uiAmount.getD 0)).getD 0) :
    get_holder_rank (Except.ok largest) (Except.ok ⟨some (ua0 :: rest)⟩) =
      some ⟨some (est_rank (ua0.tokenAmount.uiAmount.getD 0 /
          ((largest.getLast?).map (fun h => h.uiAmount.getD 0)).getD 0)),
        .tag (pyStr "est."), false⟩ := by
  rw [get_holder_rank_ok _ _ _ hne, hfind]
  rw [if_pos ⟨hub, hst⟩]

/-- C4: a wallet whose (first) token account appears in the
largest-holders list gets that account's 1-based position as its rank; a
wallet absent from the list, with positive balance and positive smallest
top-holder balance, gets the three-tier estimate on
`ratio = balance / smallest top-holder balance`: `20 + (1−ratio)×30` for
`ratio > 0.5`, `50 + (1−ratio)×200` for `0.1 < ratio ≤ 0.5`, and
`250 + (1−ratio)×1000` for `ratio ≤ 0.1` (each truncated toward zero by
Python's `int`). -/
theorem get_holder_rank_spec :
    (∀ (A : List LargestHolder) (h : LargestHolder) (B : List LargestHolder)
       (ua0 : TokenAccount) (rest : List TokenAccount),
       h.address = ua0.pubkey → (∀ a ∈ A, a.address ≠ ua0.pubkey) →
       get_holder_rank (Except.ok (A ++ h :: B)) (Except.ok ⟨some (ua0 :: rest)⟩) =
         some ⟨some ((A.length + 1 : ℕ) : ℤ), .tag (pyStr "20+"), true⟩) ∧
    (∀ (largest : List LargestHolder) (ua0 : TokenAccount) (rest : List TokenAccount),
       largest ≠ [] → find_holder_rank ua0.pubkey largest = none →
       0 < ua0.tokenAmount.uiAmount.getD 0 →
       0 < ((largest.getLast?).map (fun h => h.uiAmount.getD 0)).getD 0 →
       get_holder_rank (Except.ok largest) (Except.ok ⟨some (ua0 :: rest)⟩) =
         some ⟨some (est_rank (ua0.tokenAmount.uiAmount.getD 0 /
             ((largest.getLast?).map (fun h => h.uiAmount.getD 0)).getD 0)),
           .tag (pyStr "est."), false⟩) ∧
    (∀ r : ℚ, 1/2 < r → est_rank r = 20 + pyInt ((1 - r) * 30)) ∧
    (∀ r : ℚ, 1/10 < r → r ≤ 1/2 → est_rank r = 50 + pyInt ((1 - r) * 200)) ∧
    (∀ r : ℚ, r ≤ 1/10 → est_rank r = 250 + pyInt ((1 - r) * 1000)) := by
  refine ⟨fun A h B ua0 rest hh hA => get_holder_rank_found A h B ua0 rest hh hA,
    fun l ua0 rest h1 h2 h3 h4 => get_holder_rank_est l ua0 rest h1 h2 h3 h4, ?_, ?_, ?_⟩
  · intro r hr
    unfold est_rank
    rw [if_pos hr]
  · intro r h1 h2
    unfold est_rank
    rw [if_neg (by linarith), if_pos h1]
  · intro r h1
    unfold est_rank
    rw [if_neg (by linarith), if_neg (by linarith)]

/-- C4 witness: both branches and all three tiers at concrete inputs. -/
theorem get_holder_rank_spec_witness :
    get_holder_rank (Except.ok [⟨pyStr "w1", some 500⟩, ⟨pyStr "usr", some 300⟩])
        (Except.ok ⟨some [⟨pyStr "usr", ⟨some 300⟩⟩]⟩) =
      some ⟨some 2, .tag (pyStr "20+"), true⟩ ∧
    get_holder_rank (Except.ok [⟨pyStr "whale", some 100⟩])
        (Except.ok ⟨some [⟨pyStr "usr", ⟨some 30⟩⟩]⟩) =
      some ⟨some (est_rank ((30 : ℚ) / 100)), .tag (pyStr "est."), false⟩ ∧
    est_rank (3/4) = 20 + pyInt ((1 - 3/4) * 30) ∧
    est_rank (3/10) = 50 + pyInt ((1 - 3/10) * 200) ∧
    est_rank (1/20) = 250 + pyInt ((1 - 1/20) * 1000) := by
  refine ⟨?_, ?_, ?_, ?_, ?_⟩
  · simpa using get_holder_rank_spec.1 [⟨pyStr "w1", some 500⟩] ⟨pyStr "usr", some 300⟩ []
      ⟨pyStr "usr", ⟨some 300⟩⟩ [] rfl (by decide)
  · simpa using get_holder_rank_spec.2.1 [⟨pyStr "whale", some 100⟩] ⟨pyStr "usr", ⟨some 30⟩⟩ []
      (by decide) (by decide) (by decide) (by decide)
  · exact get_holder_rank_spec.2.2.1 (3/4) (by norm_num)
  · exact get_holder_rank_spec.2.2.2.1 (3/10) (by norm_num) (by norm_num)
  · exact get_holder_rank_spec.2.2.2.2 (1/20) (by norm_num)

/-- C9 (amended): when the wallet's first account is absent from the
largest-holders list but its balance exceeds the smallest listed
top-holder balance (`ratio > 1`), `get_holder_rank`'s tier-one estimate
`20 + int((1−ratio)×30)` is not bounded below by 21: it is at most 20,
drops to 10 or lower once `ratio ≥ 4/3`, and becomes negative once
`ratio ≥ 1.7` (for `5/3 < ratio < 1.7` it is `0`, not yet negative); any
estimate `≤ 10` makes `_format_rank` display the whale `"(Top 10)"` tier
for a wallet known not to be in the top 20. -/
theorem get_holder_rank_estimate_below_top20 :
    ∀ (largest : List LargestHolder) (ua0 : TokenAccount) (rest : List TokenAccount)
      (ub st : ℚ),
      largest ≠ [] →
      find_holder_rank ua0.pubkey largest = none →
      ua0.tokenAmount.uiAmount.getD 0 = ub →
      ((largest.getLast?).map (fun h => h.uiAmount.getD 0)).getD 0 = st →
      0 < st → st < ub →
      get_holder_rank (Except.ok largest) (Except.ok ⟨some (ua0 :: rest)⟩) =
        some ⟨some (est_rank (ub / st)), .tag (pyStr "est."), false⟩ ∧
      est_rank (ub / st) ≤ 20 ∧
      (4/3 ≤ ub / st → est_rank (ub / st) ≤ 10) ∧
      (17/10 ≤ ub / st → est_rank (ub / st) < 0) ∧
      (est_rank (ub / st) ≤ 10 →
        format_rank ⟨some (est_rank (ub / st)), .tag (pyStr "est."), false⟩ =
          pyStr "🐋 #" ++ pyStrInt (est_rank (ub / st)) ++ pyStr " (Top 10)") := by
  intro largest ua0 rest ub st hne hfind hub hst hstpos hlt
  have hr1 : 1 < ub / st := (one_lt_div hstpos).mpr hlt
  have hhalf : (1 : ℚ)/2 < ub / st := by linarith
  have hneg : (1 - ub / st) * 30 < 0 := by nlinarith
  have hest : est_rank (ub / st) = 20 + ⌈(1 - ub / st) * 30⌉ := by
    unfold est_rank
    rw [if_pos hhalf]
    unfold pyInt
    rw [if_pos hneg]
  refine ⟨?_, ?_, ?_, ?_, ?_⟩
  · have hubpos : 0 < ua0.tokenAmount.uiAmount.getD 0 := by rw [hub]; linarith
    have hstpos' : 0 < ((largest.getLast?).map (fun h => h.uiAmount.getD 0)).getD 0 := by
      rw [hst]; exact hstpos
    rw [← hub, ← hst]
    exact get_holder_rank_est largest ua0 rest hne hfind hubpos hstpos'
  · rw [hest]
    have hc : ⌈(1 - ub / st) * 30⌉ ≤ 0 := Int.ceil_le.mpr (by push_cast; linarith)
    omega
  · intro h43
    rw [hest]
    have hc : ⌈(1 - ub / st) * 30⌉ ≤ -10 := Int.ceil_le.mpr (by push_cast; linarith)
    omega
  · intro h17
    rw [hest]
    have hc : ⌈(1 - ub / st) * 30⌉ ≤ -21 := Int.ceil_le.mpr (by push_cast; linarith)
    omega
  · intro h10
    simp only [format_rank]
    rw [if_pos h10]

/-- C9 witness: ratio `170/100 = 1.7` exercises every conclusion. -/
theorem get_holder_rank_estimate_below_top20_witness :
    get_holder_rank (Except.ok [⟨pyStr "whaleAcct", some 100⟩])
        (Except.ok ⟨some [⟨pyStr "usrAcct", ⟨some 170⟩⟩]⟩) =
      some ⟨some (est_rank ((170 : ℚ) / 100)), .tag (pyStr "est."), false⟩ ∧
    est_rank ((170 : ℚ) / 100) ≤ 20 ∧
    (4/3 ≤ (170 : ℚ) / 100 → est_rank ((170 : ℚ) / 100) ≤ 10) ∧
    (17/10 ≤ (170 : ℚ) / 100 → est_rank ((170 : ℚ) / 100) < 0) ∧
    (est_rank ((170 : ℚ) / 100) ≤ 10 →
      format_rank ⟨some (est_rank ((170 : ℚ) / 100)), .tag (pyStr "est."), false⟩ =
        pyStr "🐋 #" ++ pyStrInt (est_rank ((170 : ℚ) / 100)) ++ pyStr " (Top 10)") :=
  get_holder_rank_estimate_below_top20 [⟨pyStr "whaleAcct", some 100⟩]
    ⟨pyStr "usrAcct", ⟨some 170⟩⟩ [] 170 100 (by decide) (by decide) rfl rfl
    (by norm_num) (by norm_num)

/-- C9 counterexample: at `ratio = 1.69`, which exceeds `5/3`, the
estimate is `0`, which is not negative — the estimate does not turn
negative immediately beyond `5/3`. -/
theorem get_holder_rank_estimate_zero_beyond_5_3 :
    get_holder_rank (Except.ok [⟨pyStr "whaleBig", some 100⟩])
        (Except.ok ⟨some [⟨pyStr "usrSolo", ⟨some 169⟩⟩]⟩) =
      some ⟨some 0, .tag (pyStr "est."), false⟩ ∧
    (5 : ℚ)/3 < 169/100 ∧ ¬((0 : ℤ) < 0) := by
  refine ⟨?_, by norm_num, by decide⟩
  have h := get_holder_rank_est [⟨pyStr "whaleBig", some 100⟩] ⟨pyStr "usrSolo", ⟨some 169⟩⟩ []
    (by decide) (by decide) (by decide) (by decide)
  rw [h]
  have he : est_rank ((169 : ℚ)/100) = 0 := by
    unfold est_rank
    rw [if_pos (by norm_num)]
    unfold pyInt
    rw [if_pos (by norm_num),
      show ((1 : ℚ) - 169/100) * 30 = -(207/10) by norm_num, Int.ceil_neg]
    norm_num
  simpa using he

/-- Python `max` with a key, as folded by `pyMaxBy`: the result splits the
input as `A ++ m :: B` where every element of `A` has a strictly smaller
key (the first maximum wins ties) and `m`'s key bounds the whole list. -/
theorem foldl_max_first (f : Pair → ℚ) :
    ∀ (xs : List Pair) (x : Pair),
      ∃ A B, x :: xs = A ++ (xs.foldl (fun b c => if f b < f c then c else b) x) :: B ∧
        (∀ a ∈ A, f a < f (xs.foldl (fun b c => if f b < f c then c else b) x)) ∧
        (∀ q ∈ x :: xs, f q ≤ f (xs.foldl (fun b c => if f b < f c then c else b) x)) := by
  intro xs
  induction xs with
  | nil =>
    intro x
    exact ⟨[], [], rfl, by simp, by simp⟩
  | cons y t ih =>
    intro x
    simp only [List.foldl_cons]
    by_cases hxy : f x < f y
    · rw [if_pos hxy]
      obtain ⟨A, B, hAB, hA, hall⟩ := ih y
      refine ⟨x :: A, B, by rw [List.cons_append, ← hAB], ?_, ?_⟩
      · intro a ha
        rcases List.mem_cons.mp ha with rfl | ha
        · exact lt_of_lt_of_le hxy (hall y (List.mem_cons_self y t))
        · exact hA a ha
      · intro q hq
        rcases List.mem_cons.mp hq with rfl | hq
        · exact le_of_lt (lt_of_lt_of_le hxy (hall y (List.mem_cons_self y t)))
        · exact hall q hq
    · rw [if_neg hxy]
      obtain ⟨A, B, hAB, hA, hall⟩ := ih x
      have hyx : f y ≤ f x := le_of_not_lt hxy
      cases A with
      | nil =>
        simp only [List.nil_append] at hAB
        injection hAB with h1 h2
        refine ⟨[], y :: t, ?_, by simp, ?_⟩
        · rw [List.nil_append, ← h1]
        · intro q hq
          rcases List.mem_cons.mp hq with rfl | hq
          · exact hall q (List.mem_cons_self q t)
          · rcases List.mem_cons.mp hq with rfl | hq
            · exact le_trans hyx (hall x (List.mem_cons_self x t))
            · exact hall q (List.mem_cons_of_mem x hq)
      | cons a A' =>
        rw [List.cons_append] at hAB
        injection hAB with h1 h2
        subst h1
        refine ⟨x :: y :: A', B, ?_, ?_, ?_⟩
        · rw [List.cons_append, List.cons_append, ← h2]
        · intro q hq
          have hxm : f x < f (t.foldl (fun b c => if f b < f c then c else b) x) :=
            hA x (List.mem_cons_self x A')
          rcases List.mem_cons.mp hq with rfl | hq
          · exact hxm
          · rcases List.mem_cons.mp hq with rfl | hq
            · exact lt_of_le_of_lt hyx hxm
            · exact hA q (List.mem_cons_of_mem x hq)
        · intro q hq
          rcases List.mem_cons.mp hq with rfl | hq
          · exact hall q (List.mem_cons_self q t)
          · rcases List.mem_cons.mp hq with rfl | hq
            · exact le_trans hyx (hall x (List.mem_cons_self x t))
            · exact hall q (List.mem_cons_of_mem x hq)

/-- C5: among the trading pairs returned by the aggregator,
`get_token_price` selects the pair with the highest reported USD liquidity
regardless of the list's order, breaking ties in favor of the first such
pair in iteration order; in particular, for liquidity values
`[100, 5000, 200]` in any arrangement, the pair with liquidity `5000` is
selected. -/
theorem get_token_price_spec :
    (∀ (p0 : Pair) (rest : List Pair),
      ∃ m A B, pyMaxBy pairLiq (p0 :: rest) = some m ∧
        get_token_price (Except.ok (p0 :: rest)) = some (pair_market_data m) ∧
        p0 :: rest = A ++ m :: B ∧
        (∀ q ∈ p0 :: rest, pairLiq q ≤ pairLiq m) ∧
        (∀ a ∈ A, pairLiq a < pairLiq m)) ∧
    (∀ pairs : List Pair, List.Perm (pairs.map pairLiq) [100, 5000, 200] →
      ∃ m, pyMaxBy pairLiq pairs = some m ∧ pairLiq m = 5000) := by
  constructor
  · intro p0 rest
    obtain ⟨A, B, hAB, hA, hall⟩ := foldl_max_first pairLiq rest p0
    exact ⟨_, A, B, rfl, rfl, hAB, hall, hA⟩
  · intro pairs hperm
    cases pairs with
    | nil => simpa using hperm.length_eq
    | cons p0 rest =>
      obtain ⟨A, B, hAB, hA, hall⟩ := foldl_max_first pairLiq rest p0
      refine ⟨rest.foldl (fun b c => if pairLiq b < pairLiq c then c else b) p0, rfl, ?_⟩
      set m := rest.foldl (fun b c => if pairLiq b < pairLiq c then c else b) p0 with hm
      have hmem : m ∈ p0 :: rest := by
        rw [hAB]
        exact List.mem_append.mpr (Or.inr (List.mem_cons_self m B))
      have hmmem : pairLiq m ∈ ([100, 5000, 200] : List ℚ) :=
        hperm.mem_iff.mp (List.mem_map_of_mem pairLiq hmem)
      have h5 : (5000 : ℚ) ∈ (p0 :: rest).map pairLiq := hperm.mem_iff.mpr (by simp)
      obtain ⟨q, hq, hq5⟩ := List.mem_map.mp h5
      have hle : (5000 : ℚ) ≤ pairLiq m := hq5 ▸ hall q hq
      rcases List.mem_cons.mp hmmem with h | h
      · rw [h] at hle; norm_num at hle
      · rcases List.mem_cons.mp h with h | h
        · exact h
        · rcases List.mem_cons.mp h with h | h
          · rw [h] at hle; norm_num at hle
          · cases h

/-- C5 witness: an unsorted arrangement of the liquidities 100, 5000, 200. -/
theorem get_token_price_spec_witness :
    ∃ m, pyMaxBy pairLiq
        [⟨some 100, some 1, none, none, none, none⟩,
         ⟨some 5000, some 2, none, none, none, none⟩,
         ⟨some 200, some 3, none, none, none, none⟩] = some m ∧
      pairLiq m = 5000 :=
  get_token_price_spec.2 _ (by decide)

/-- The months branch of the tenure pipeline: for `30 ≤ days < 365` the
duration string is `"Mm Dd"` and the label depends only on
`months = days // 30`. -/
theorem tenure_label_of_months (d s : Nat) (h30 : 30 ≤ d) (h365 : ¬ 365 ≤ d) :
    tenure_label (some (d, s)) =
      (if (6 : ℤ) ≤ ((d / 30 : ℕ) : ℤ) then pyStr "DIAMOND"
       else if (3 : ℤ) ≤ ((d / 30 : ℕ) : ℤ) then pyStr "STRONG" else pyStr "STEADY") := by
  have hm2 : pyStr "m " = ['m', ' '] := rfl
  have hd1 : pyStr "d" = ['d'] := rfl
  unfold tenure_label
  simp only [hold_duration]
  rw [if_neg h365, if_pos h30, hm2, hd1]
  have hshape : pyStrNat (d / 30) ++ ['m', ' '] ++ pyStrNat (d % 30) ++ ['d'] =
      pyStrNat (d / 30) ++ 'm' :: ' ' :: (pyStrNat (d % 30) ++ ['d']) := by
    simp [List.append_assoc]
  rw [hshape]
  set str := pyStrNat (d / 30) ++ 'm' :: ' ' :: (pyStrNat (d % 30) ++ ['d']) with hstr
  have hm : 'm' ∈ str := by
    rw [hstr]
    exact List.mem_append.mpr (Or.inr (List.mem_cons_self _ _))
  have hnil : str ≠ [] := List.ne_nil_of_mem hm
  have hchars : ∀ c ∈ str, c.isDigit = true ∨ c = 'm' ∨ c = ' ' ∨ c = 'd' := by
    intro c hc
    rw [hstr] at hc
    rcases List.mem_append.mp hc with hcl | hcr
    · exact Or.inl (mem_pyStrNat_isDigit _ c hcl)
    · rcases List.mem_cons.mp hcr with rfl | hcr
      · exact Or.inr (Or.inl rfl)
      · rcases List.mem_cons.mp hcr with rfl | hcr
        · exact Or.inr (Or.inr (Or.inl rfl))
        · rcases List.mem_append.mp hcr with hcl2 | hcr2
          · exact Or.inl (mem_pyStrNat_isDigit _ c hcl2)
          · rw [List.mem_singleton] at hcr2
            exact Or.inr (Or.inr (Or.inr hcr2))
  have hnN : str ≠ pyStr "New holder" := by
    intro he
    have : 'm' ∈ pyStr "New holder" := he ▸ hm
    exact absurd this (by decide)
  have hy : 'y' ∉ str := by
    intro hyy
    rcases hchars 'y' hyy with h | h | h | h
    · exact absurd h (by decide)
    · exact absurd h (by decide)
    · exact absurd h (by decide)
    · exact absurd h (by decide)
  simp only [pyOrStr]
  rw [if_neg hnil]
  simp only [get_hands_label]
  rw [if_neg (not_or.mpr ⟨hnil, hnN⟩), if_neg hy, if_pos hm, hstr,
    takeWhile_all_append (fun c => c != 'm') (pyStrNat (d / 30)) 'm'
      (' ' :: (pyStrNat (d % 30) ++ ['d']))
      (fun c hc => bne_iff_ne.mpr (isDigit_ne (mem_pyStrNat_isDigit _ c hc) (by decide)))
      (by decide),
    pyStrip_of_digits _ (mem_pyStrNat_isDigit _), pyParseInt_pyStrNat]
  rfl

/-- C6: the hold-duration pipeline — elapsed ≥ 365 days gives a
`"Yy Mm"` string labelled `OG DIAMOND`; 30–364 days gives `"Mm Dd"`
labelled `DIAMOND` when `months ≥ 6`, `STRONG` when `months ≥ 3`, else
`STEADY`; under 30 days gives `"Dd Hh"` labelled `FRESH`; a null first
buy gives `"New holder"` labelled `NEW`.  Concretely: 400 days elapsed →
`OG DIAMOND`; 190 days → `"6m 10d"` → `DIAMOND`; 10 days → `FRESH`. -/
theorem tenure_label_spec :
    (∀ d s : Nat, 365 ≤ d → tenure_label (some (d, s)) = pyStr "OG DIAMOND") ∧
    (∀ d s : Nat, 30 ≤ d → d < 365 → 6 ≤ d / 30 →
      tenure_label (some (d, s)) = pyStr "DIAMOND") ∧
    (∀ d s : Nat, 30 ≤ d → d < 365 → 3 ≤ d / 30 → d / 30 < 6 →
      tenure_label (some (d, s)) = pyStr "STRONG") ∧
    (∀ d s : Nat, 30 ≤ d → d < 365 → d / 30 < 3 →
      tenure_label (some (d, s)) = pyStr "STEADY") ∧
    (∀ d s : Nat, d < 30 → tenure_label (some (d, s)) = pyStr "FRESH") ∧
    tenure_label none = pyStr "NEW" ∧
    pyOrStr (hold_duration (some (190, 0))) (pyStr "New holder") = pyStr "6m 10d" ∧
    tenure_label (some (400, 0)) = pyStr "OG DIAMOND" ∧
    tenure_label (some (190, 0)) = pyStr "DIAMOND" ∧
    tenure_label (some (10, 18000)) = pyStr "FRESH" := by
  refine ⟨?_, ?_, ?_, ?_, ?_, by decide, by decide, by decide, by decide, by decide⟩
  · intro d s hd
    have hy2 : pyStr "y " = ['y', ' '] := rfl
    have hm1 : pyStr "m" = ['m'] := rfl
    unfold tenure_label
    simp only [hold_duration]
    rw [if_pos hd, hy2, hm1]
    have hshape : pyStrNat (d / 365) ++ ['y', ' '] ++ pyStrNat (d % 365 / 30) ++ ['m'] =
        pyStrNat (d / 365) ++ 'y' :: ' ' :: (pyStrNat (d % 365 / 30) ++ ['m']) := by
      simp [List.append_assoc]
    rw [hshape]
    set str := pyStrNat (d / 365) ++ 'y' :: ' ' :: (pyStrNat (d % 365 / 30) ++ ['m']) with hstr
    have hy : 'y' ∈ str := by
      rw [hstr]
      exact List.mem_append.mpr (Or.inr (List.mem_cons_self _ _))
    have hnil : str ≠ [] := List.ne_nil_of_mem hy
    have hnN : str ≠ pyStr "New holder" := by
      intro he
      have : 'y' ∈ pyStr "New holder" := he ▸ hy
      exact absurd this (by decide)
    simp only [pyOrStr]
    rw [if_neg hnil]
    simp only [get_hands_label]
    rw [if_neg (not_or.mpr ⟨hnil, hnN⟩), if_pos hy]
  · intro d s h30 h365 h6
    rw [tenure_label_of_months d s h30 (by omega), if_pos (by omega)]
  · intro d s h30 h365 h3 h6
    rw [tenure_label_of_months d s h30 (by omega), if_neg (by omega), if_pos (by omega)]
  · intro d s h30 h365 h3
    rw [tenure_label_of_months d s h30 (by omega), if_neg (by omega), if_neg (by omega)]
  · intro d s hd
    have hd2 : pyStr "d " = ['d', ' '] := rfl
    have hh1 : pyStr "h" = ['h'] := rfl
    unfold tenure_label
    simp only [hold_duration]
    rw [if_neg (by omega), if_neg (by omega), hd2, hh1]
    have hshape : pyStrNat d ++ ['d', ' '] ++ pyStrNat (s / 3600) ++ ['h'] =
        pyStrNat d ++ 'd' :: ' ' :: (pyStrNat (s / 3600) ++ ['h']) := by
      simp [List.append_assoc]
    rw [hshape]
    set str := pyStrNat d ++ 'd' :: ' ' :: (pyStrNat (s / 3600) ++ ['h']) with hstr
    have hdm : 'd' ∈ str := by
      rw [hstr]
      exact List.mem_append.mpr (Or.inr (List.mem_cons_self _ _))
    have hnil : str ≠ [] := List.ne_nil_of_mem hdm
    have hchars : ∀ c ∈ str, c.isDigit = true ∨ c = 'd' ∨ c = ' ' ∨ c = 'h' := by
      intro c hc
      rw [hstr] at hc
      rcases List.mem_append.mp hc with hcl | hcr
      · exact Or.inl (mem_pyStrNat_isDigit _ c hcl)
      · rcases List.mem_cons.mp hcr with rfl | hcr
        · exact Or.inr (Or.inl rfl)
        · rcases List.mem_cons.mp hcr with rfl | hcr
          · exact Or.inr (Or.inr (Or.inl rfl))
          · rcases List.mem_append.mp hcr with hcl2 | hcr2
            · exact Or.inl (mem_pyStrNat_isDigit _ c hcl2)
            · rw [List.mem_singleton] at hcr2
              exact Or.inr (Or.inr (Or.inr hcr2))
    have hnN : str ≠ pyStr "New holder" := by
      intro he
      have hN : 'N' ∈ str := by
        rw [he]
        decide
      rcases hchars 'N' hN with h | h | h | h
      · exact absurd h (by decide)
      · exact absurd h (by decide)
      · exact absurd h (by decide)
      · exact absurd h (by decide)
    have hy : 'y' ∉ str := by
      intro hyy
      rcases hchars 'y' hyy with h | h | h | h
      · exact absurd h (by decide)
      · exact absurd h (by decide)
      · exact absurd h (by decide)
      · exact absurd h (by decide)
    have hm : 'm' ∉ str := by
      intro hmm
      rcases hchars 'm' hmm with h | h | h | h
      · exact absurd h (by decide)
      · exact absurd h (by decide)
      · exact absurd h (by decide)
      · exact absurd h (by decide)
    simp only [pyOrStr]
    rw [if_neg hnil]
    simp only [get_hands_label]
    rw [if_neg (not_or.mpr ⟨hnil, hnN⟩), if_neg hy, if_neg hm]

/-- C6 witness: every bucket at a concrete elapsed duration. -/
theorem tenure_label_spec_witness :
    tenure_label (some (400, 0)) = pyStr "OG DIAMOND" ∧
    tenure_label (some (190, 0)) = pyStr "DIAMOND" ∧
    tenure_label (some (100, 0)) = pyStr "STRONG" ∧
    tenure_label (some (40, 0)) = pyStr "STEADY" ∧
    tenure_label (some (10, 18000)) = pyStr "FRESH" :=
  ⟨tenure_label_spec.1 400 0 (by decide),
   tenure_label_spec.2.1 190 0 (by decide) (by decide) (by decide),
   tenure_label_spec.2.2.1 100 0 (by decide) (by decide) (by decide) (by decide),
   tenure_label_spec.2.2.2.1 40 0 (by decide) (by decide) (by decide),
   tenure_label_spec.2.2.2.2.1 10 18000 (by decide)⟩
